import Mathlib

/-
Verification of the transcript pipeline of the mom_generator repository
(file streamlit.py): VTT cue parsing, adjacent-segment merging, and
time-windowed chunking with overlap.

Embedding conventions:
  * Python strings are Lean `String` (a structure over `List Char`);
    `str.strip()` is `strip`, `str.split(sep)` is `splitCh`,
    `"\n"`-based line splitting models `str.splitlines()` (Python also
    splits on a few rarer separators such as `\r`; the claims under
    study do not depend on those).
  * The regular expression CUE_RE
    `(\d{2}:\d{2}:\d{2}\.\d{3})\s*-->\s*(\d{2}:\d{2}:\d{2}\.\d{3})`
    used with `re.match` (prefix-anchored) is `cueMatch`.
  * The regular expression SPEAKER_COLON `^\s*([A-Z][\w .'\-]{0,40}):\s*(.*)$`
    used with `re.match` is `speakerMatch`; because the character class
    excludes `:`and the greedy `{0,40}` repetition can only be followed by
    `:` at the end of the maximal class run, the backtracking search
    succeeds exactly when the maximal run after the initial capital has
    length at most 40 and is immediately followed by `:`.  `\w` is
    modelled over ASCII as letter / digit / underscore.
  * Python float timestamp arithmetic is modelled exactly over `ℚ`
    (every value produced by `_sec` is an integer number of milliseconds
    divided by 1000).
  * The unbounded `while cur < end_all` loop of `chunk` is modelled by
    the fuel-indexed `chunkGo`; `chunkGo` returns `none` exactly when
    the given number of iterations does not complete the loop, so
    `∀ fuel, chunkGo … fuel = none` states that the loop never ends.
-/

namespace VTT

/-! ## Data model -/

/-- A parsed segment: Python dict `{"start","end","speaker","text"}`.
The Python key `end` is spelled `stop` here (`end` is reserved). -/
structure Seg where
  start : String
  stop : String
  speaker : Option String
  text : String
deriving DecidableEq, Repr

/-- A window produced by `chunk`: Python dict `{"start","end","items"}`
(`end` spelled `stop`). -/
structure Window where
  start : ℚ
  stop : ℚ
  items : List Seg
deriving DecidableEq, Repr

/-! ## Character and string primitives -/

/-- Python `str.split(sep)` on character lists (keeps empty fields). -/
def splitCh (sep : Char) : List Char → List (List Char)
  | [] => [[]]
  | c :: cs =>
    match splitCh sep cs with
    | [] => [[c]]
    | fld :: rest => if c == sep then [] :: fld :: rest else (c :: fld) :: rest

/-- Python `str.strip()` on character lists. -/
def stripChars (cs : List Char) : List Char :=
  ((cs.dropWhile Char.isWhitespace).reverse.dropWhile Char.isWhitespace).reverse

/-- Python `str.strip()`. -/
def strip (s : String) : String := ⟨stripChars s.data⟩

/-- Python `" ".join(texts)`. -/
def joinSp : List String → String
  | [] => ""
  | [t] => t
  | t :: ts => t ++ " " ++ joinSp ts

/-! ## CUE_RE -/

/-- One `\d{2}:\d{2}:\d{2}\.\d{3}` timestamp at the head of the input;
returns the captured group and the remaining characters. -/
def pTS : List Char → Option (String × List Char)
  | a :: b :: ':' :: c :: d :: ':' :: e :: f :: '.' :: g :: h :: i :: rest =>
    if a.isDigit && b.isDigit && c.isDigit && d.isDigit && e.isDigit
        && f.isDigit && g.isDigit && h.isDigit && i.isDigit then
      some (⟨[a, b, ':', c, d, ':', e, f, '.', g, h, i]⟩, rest)
    else none
  | _ => none

/-- The string is exactly one well-formed `HH:MM:SS.mmm` timestamp. -/
def tsShape (s : String) : Bool := decide (pTS s.data = some (s, []))

/-- `CUE_RE.match(line)`: prefix match of
`TS \s* --> \s* TS`, returning the two captured timestamps. -/
def cueMatch (line : String) : Option (String × String) :=
  match pTS line.data with
  | some (st, r1) =>
    match r1.dropWhile Char.isWhitespace with
    | '-' :: '-' :: '>' :: r2 =>
      match pTS (r2.dropWhile Char.isWhitespace) with
      | some (en, _) => some (st, en)
      | none => none
    | _ => none
  | none => none

/-! ## SPEAKER_COLON -/

/-- ASCII model of Python `\w`: letter, digit or underscore. -/
def isWordChar (c : Char) : Bool := c.isAlpha || c.isDigit || c == '_'

/-- A character of the class `[\w .'\-]` of SPEAKER_COLON. -/
def isSpkChar (c : Char) : Bool :=
  isWordChar c || c == ' ' || c == '.' || c == '\'' || c == '-'

/-- `SPEAKER_COLON.match(text)`: `^\s*([A-Z][\w .'\-]{0,40}):\s*(.*)$`.
The maximal class run after the initial capital must have length at most
40 and be followed by `:` (see the header comment); the remainder after
`:` loses its leading whitespace (`\s*`) and the rest is group 2. -/
def speakerMatch (text : String) : Option (String × String) :=
  match text.data.dropWhile Char.isWhitespace with
  | [] => none
  | c :: rest =>
    if c.isUpper then
      if (rest.takeWhile isSpkChar).length ≤ 40 then
        match rest.dropWhile isSpkChar with
        | ':' :: tail =>
          some (⟨c :: rest.takeWhile isSpkChar⟩, ⟨tail.dropWhile Char.isWhitespace⟩)
        | _ => none
      else none
    else none

/-- Lines 34–37 of streamlit.py: speaker extraction over the joined
payload; on no match the segment keeps `speaker = None` and the full
payload as text. -/
def speakerSplit (text : String) : Option String × String :=
  match speakerMatch text with
  | some (s, b) => (some s, b)
  | none => (none, text)

/-! ## parse_vtt -/

/-- Build one output segment from captured timestamps and the collected
(stripped) payload lines: join with single spaces, then speaker split. -/
def mkSeg (st en : String) (texts : List String) : Seg :=
  let text := joinSp texts
  ⟨st, en, (speakerSplit text).1, (speakerSplit text).2⟩

/-- The scanning loop of `parse_vtt` (lines 22–39), fused into a single
pass over the line list.  State `none`: looking for a cue-timing line
(testing the stripped line).  State `some (st, en, texts)`: inside a
cue's payload; a non-blank line whose unstripped form does not match
CUE_RE is appended (stripped) to the payload; any other line closes the
segment and is then re-examined exactly like Python's outer loop does
with `i = j`. -/
def parseGo : Option (String × String × List String) → List String → List Seg
  | none, [] => []
  | some (st, en, texts), [] => [mkSeg st en texts]
  | none, l :: ls =>
    (match cueMatch (strip l) with
     | some (st, en) => parseGo (some (st, en, [])) ls
     | none => parseGo none ls)
  | some (st, en, texts), l :: ls =>
    if strip l ≠ "" ∧ cueMatch l = none then
      parseGo (some (st, en, texts ++ [strip l])) ls
    else
      mkSeg st en texts ::
        (match cueMatch (strip l) with
         | some (st2, en2) => parseGo (some (st2, en2, [])) ls
         | none => parseGo none ls)

/-- `raw.splitlines()` (modulo the rarer separators, see header). -/
def splitLines (raw : String) : List String :=
  (splitCh '\n' raw.data).map fun cs => ⟨cs⟩

/-- `parse_vtt` (lines 19–40). -/
def parse_vtt (raw : String) : List Seg := parseGo none (splitLines raw)

/-! ## _sec -/

/-- Python `int(...)` restricted to the digit strings that occur here. -/
def natOf (cs : List Char) : Option Nat :=
  if cs ≠ [] ∧ cs.all Char.isDigit then
    some (cs.foldl (fun n c => 10 * n + (c.toNat - 48)) 0)
  else none

/-- `_sec` (line 42): `h,m,s = ts.split(":"); s,ms = s.split(".")`;
`none` models the Python exception on malformed input. -/
def sec? (ts : String) : Option ℚ :=
  match splitCh ':' ts.data with
  | [hcs, mcs, scs] =>
    match splitCh '.' scs with
    | [sIn, msIn] =>
      match natOf hcs, natOf mcs, natOf sIn, natOf msIn with
      | some hn, some mn, some sn, some msn =>
        some ((hn : ℚ) * 3600 + (mn : ℚ) * 60 + (sn : ℚ) + (msn : ℚ) / 1000)
      | _, _, _, _ => none
    | _ => none
  | _ => none

/-- Total wrapper for `_sec`; the pipeline only ever applies it to
well-formed timestamps (claim C7), where it agrees with `sec?`. -/
def sec (ts : String) : ℚ := (sec? ts).getD 0

/-! ## merge_short -/

/-- One iteration of the `merge_short` loop (lines 45–49); `rev` is the
`merged` accumulator in reverse order, so `rev.head?` is `merged[-1]`. -/
def mergeStep (gap : ℚ) (rev : List Seg) (s : Seg) : List Seg :=
  match rev with
  | [] => [s]
  | last :: rest =>
    if s.speaker = last.speaker ∧ 0 ≤ sec s.start - sec last.stop
        ∧ sec s.start - sec last.stop ≤ gap then
      ⟨last.start, s.stop, last.speaker, last.text ++ " " ++ s.text⟩ :: rest
    else
      s :: last :: rest

/-- `merge_short` (lines 43–50); the source default is `gap=3`. -/
def merge_short (segs : List Seg) (gap : ℚ) : List Seg :=
  (segs.foldl (mergeStep gap) []).reverse

/-- Modelled from the spec: §4.3 Segment Merger, stated as a direct
recursion carrying the currently retained segment.  Merge the incoming
segment when the speakers agree (None equal to None) and the gap lies in
`[0, gap]`; on merge extend `end` and append the text after one space;
otherwise retain the incoming segment as the new candidate. -/
def mergeSpecGo (gap : ℚ) (retained : Seg) : List Seg → List Seg
  | [] => [retained]
  | s :: rest =>
    if s.speaker = retained.speaker ∧ 0 ≤ sec s.start - sec retained.stop
        ∧ sec s.start - sec retained.stop ≤ gap then
      mergeSpecGo gap ⟨retained.start, s.stop, retained.speaker, retained.text ++ " " ++ s.text⟩ rest
    else
      retained :: mergeSpecGo gap s rest

/-- Modelled from the spec: §4.3 Segment Merger, top level. -/
def mergeSpec (gap : ℚ) : List Seg → List Seg
  | [] => []
  | s :: rest => mergeSpecGo gap s rest

/-! ## chunk -/

/-- The `while cur < end_all` loop of `chunk` (lines 56–60), indexed by
fuel: `none` means the given number of iterations did not finish the
loop.  Each iteration emits the window
`{"start": cur, "end": min (cur+window) end_all, "items": …}` with the
half-open intersection filter of line 58, then advances
`cur = (cur + window) - overlap`. -/
def chunkGo (segs : List Seg) (window overlap endAll : ℚ) : Nat → ℚ → Option (List Window)
  | 0, cur => if cur < endAll then none else some []
  | fuel + 1, cur =>
    if cur < endAll then
      match chunkGo segs window overlap endAll fuel (cur + window - overlap) with
      | some ws =>
        some (⟨cur, min (cur + window) endAll,
               segs.filter fun s => decide (sec s.start < cur + window) && decide (sec s.stop > cur)⟩ :: ws)
      | none => none
    else some []

/-- `_sec(segs[0]["start"])` of line 54 (0 for an empty list). -/
def startAll (segs : List Seg) : ℚ :=
  match segs with
  | [] => 0
  | s :: _ => sec s.start

/-- `_sec(segs[-1]["end"])` of line 54 (0 for an empty list). -/
def endAll (segs : List Seg) : ℚ :=
  match segs.getLast? with
  | some s => sec s.stop
  | none => 0

/-- Iteration budget that completes the loop whenever
`overlap < window` (the start advances by `window - overlap` each turn). -/
def chunkFuel (segs : List Seg) (window overlap : ℚ) : Nat :=
  (((endAll segs - startAll segs) / (window - overlap)).ceil).toNat + 1

/-- `chunk` (lines 52–61).  `some ws` when the loop terminates within
the computed budget; `none` reflects a run that does not finish. -/
def chunkOpt (segs : List Seg) (window overlap : ℚ) : Option (List Window) :=
  match segs with
  | [] => some []
  | _ :: _ =>
    chunkGo segs window overlap (endAll segs) (chunkFuel segs window overlap) (startAll segs)

/-! ## Orchestration (lines 169–180) -/

/-- The generate-button flow up to the summarization fan-out:
parse, merge with the default gap 3, stop with the blocking error when
no cues were found, otherwise chunk with the default `window=360,
overlap=20` and hand each window to the summarization collaborator. -/
def pipeline {α : Type} (summarize : Window → α) (raw : String) : Except String (List α) :=
  let segs := merge_short (parse_vtt raw) 3
  if segs = [] then Except.error ("No cues found in file.")
  else Except.ok (((chunkOpt segs 360 20).getD []).map summarize)

/-! ## Well-formed VTT inputs (for the parser-completeness claims) -/

/-- One abstract cue block: two timestamps and its payload lines. -/
structure Block where
  start : String
  stop : String
  payload : List String
deriving DecidableEq, Repr

/-- The canonical cue-timing line `ST --> EN`. -/
def renderCueLine (st en : String) : String :=
  ⟨st.data ++ ' ' :: '-' :: '-' :: '>' :: ' ' :: en.data⟩

/-- Render one block: timing line, payload lines, blank separator. -/
def renderBlock (b : Block) : List String :=
  renderCueLine b.start b.stop :: b.payload ++ [""]

/-- Render a sequence of blocks, each preceded by arbitrary skipped
lines (headers, identifiers, NOTE blocks, …). -/
def renderAll (blocks : List (List String × Block)) : List String :=
  (blocks.map fun jb => jb.1 ++ renderBlock jb.2).flatten

/-- Inverse of `splitLines`: join lines with `\n`. -/
def unlinesCh : List String → List Char
  | [] => []
  | [l] => l.data
  | l :: ls => l.data ++ '\n' :: unlinesCh ls

/-- Inverse of `splitLines`, on strings. -/
def unlines (ls : List String) : String := ⟨unlinesCh ls⟩

/-- The line holds no newline character. -/
def noNL (l : String) : Bool := l.data.all fun c => !(c == '\n')

/-- A line the parser skips: its stripped form is not a cue-timing line. -/
def JunkLine (l : String) : Prop := cueMatch (strip l) = none ∧ noNL l = true

/-- A well-formed payload line: non-blank and not a cue-timing line. -/
def PayloadLine (l : String) : Prop :=
  strip l ≠ "" ∧ cueMatch l = none ∧ noNL l = true

/-- A well-formed cue block: well-formed timestamps, well-formed
payload lines. -/
def GoodBlock (b : Block) : Prop :=
  tsShape b.start = true ∧ tsShape b.stop = true ∧ ∀ l ∈ b.payload, PayloadLine l

instance (l : String) : Decidable (JunkLine l) := by
  unfold JunkLine
  infer_instance

instance (l : String) : Decidable (PayloadLine l) := by
  unfold PayloadLine
  infer_instance

instance (b : Block) : Decidable (GoodBlock b) := by
  unfold GoodBlock
  infer_instance

/-- The segment a well-formed block must parse to. -/
def segOfBlock (b : Block) : Seg := mkSeg b.start b.stop (b.payload.map strip)

/-! ## Canonical timestamp rendering (for the `_sec` formula claim) -/

/-- Zero-padded two-digit rendering of `n ≤ 99`. -/
def twoDig (n : Nat) : List Char := [Char.ofNat (48 + n / 10), Char.ofNat (48 + n % 10)]

/-- Zero-padded three-digit rendering of `n ≤ 999`. -/
def threeDig (n : Nat) : List Char :=
  [Char.ofNat (48 + n / 100), Char.ofNat (48 + n / 10 % 10), Char.ofNat (48 + n % 10)]

/-- The canonical `HH:MM:SS.mmm` string with the given field values. -/
def fmtTS (H M S ms : Nat) : String :=
  ⟨twoDig H ++ ':' :: twoDig M ++ ':' :: twoDig S ++ '.' :: threeDig ms⟩

/-! ## Concrete instances used by witnesses and counterexamples -/

/-- A segment spanning seconds 0–350. -/
def segEx1a : Seg := ⟨"00:00:00.000", "00:05:50.000", some "A", "a"⟩

/-- The straddling segment, 350–370 seconds. -/
def segEx1mid : Seg := ⟨"00:05:50.000", "00:06:10.000", some "B", "b"⟩

/-- A segment spanning seconds 370–1000. -/
def segEx1c : Seg := ⟨"00:06:10.000", "00:16:40.000", some "A", "c"⟩

/-- Segments spanning seconds 0–350, 350–370, 370–1000, with alternating
speakers (so `merge_short` keeps all three). -/
def segsEx1 : List Seg := [segEx1a, segEx1mid, segEx1c]

/-- The window list `chunk` produces for `segsEx1` under the defaults. -/
def wsEx1 : List Window :=
  [⟨0, 360, [segEx1a, segEx1mid]⟩,
   ⟨340, 700, [segEx1a, segEx1mid, segEx1c]⟩,
   ⟨680, 1000, [segEx1c]⟩]

/-- The first window of `wsEx1`. -/
def wEx1 : Window := ⟨0, 360, [segEx1a, segEx1mid]⟩

/-- Two chronological segments with `start ≤ end` each, distinct
speakers (so `merge_short` keeps both): 0–10 and the degenerate 10–10. -/
def segsEx2 : List Seg :=
  [⟨"00:00:00.000", "00:00:10.000", some "A", "x"⟩,
   ⟨"00:00:10.000", "00:00:10.000", some "B", "y"⟩]

/-- The degenerate second segment of `segsEx2`. -/
def segEx2b : Seg := ⟨"00:00:10.000", "00:00:10.000", some "B", "y"⟩

/-- A single segment spanning seconds 0–360, used for the
non-termination witness of the unguarded `overlap ≥ window` case. -/
def segEx3 : Seg := ⟨"00:00:00.000", "00:06:00.000", none, "x"⟩

/-- A single merged segment spanning seconds 0–350: its chunking under
the defaults yields a clipped first window that is not the final one. -/
def segsEx4 : List Seg := [⟨"00:00:00.000", "00:05:50.000", none, "t"⟩]

/-- The window list `chunk` produces for `segsEx4` under the defaults:
the first window is clipped to the overall end although it is not the
final one. -/
def wsEx4 : List Window := [⟨0, 350, segsEx4⟩, ⟨340, 350, segsEx4⟩]

/-- Two well-formed cue blocks, the first preceded by a WEBVTT header
and a blank line. -/
def blocksEx : List (List String × Block) :=
  [(["WEBVTT", ""], ⟨"00:00:01.000", "00:00:02.000", ["Alice: hi"]⟩),
   ([], ⟨"00:00:02.000", "00:00:03.000", ["world"]⟩)]

/-- A one-cue input with a speaker-prefixed payload. -/
def rawEx7 : String := "00:00:01.000 --> 00:00:02.000\nAlice: hi"

/-- The segment `parse_vtt` produces for `rawEx7`. -/
def segEx7 : Seg := ⟨"00:00:01.000", "00:00:02.000", some "Alice", "hi"⟩

/-- A well-formed cue-timing line written with one leading space. -/
def lineEx10 : String := " 00:00:02.000 --> 00:00:03.000"

/-! ## Spec-side statements used by claims -/

/-- Declarative reading of a successful SPEAKER_COLON match (claim C6,
amended): the payload decomposes as optional whitespace, a speaker name
(capital letter plus at most 40 word/space/period/apostrophe/hyphen
characters), a colon, whitespace, and the remainder. -/
def SpeakerDecomp (text s b : String) : Prop :=
  ∃ w1 w2 : List Char, ∃ c : Char, ∃ t : List Char,
    text.data = w1 ++ (c :: t) ++ ':' :: (w2 ++ b.data)
      ∧ (∀ x ∈ w1, x.isWhitespace = true)
      ∧ c.isUpper = true
      ∧ (∀ x ∈ t, isSpkChar x = true)
      ∧ t.length ≤ 40
      ∧ (∀ x ∈ w2, x.isWhitespace = true)
      ∧ (∀ x, b.data.head? = some x → x.isWhitespace = false)
      ∧ s.data = c :: t

/-- Layout of a produced window list (claim C4, amended): successive
starts advance by exactly `window - overlap`; every window's end is its
nominal end `start + window` clipped to the overall end; the windows'
`[start, stop)` ranges union to exactly the overall span, with no gap. -/
def ChunkShape (segs : List Seg) (window overlap : ℚ) (ws : List Window) : Prop :=
  (∀ i : Nat, ∀ hi : i + 1 < ws.length,
      (ws.get ⟨i + 1, hi⟩).start = (ws.get ⟨i, Nat.lt_of_succ_lt hi⟩).start + (window - overlap))
    ∧ (∀ w ∈ ws, w.stop = min (w.start + window) (endAll segs))
    ∧ (∀ t : ℚ, (startAll segs ≤ t ∧ t < endAll segs) ↔ ∃ w ∈ ws, w.start ≤ t ∧ t < w.stop)

/-! ## Character facts -/

theorem ws_cases {c : Char} (h : c.isWhitespace = true) :
    c = ' ' ∨ c = '\t' ∨ c = '\r' ∨ c = '\n' := by
  have h2 : ((c = ' ' ∨ c = '\t') ∨ c = '\r') ∨ c = '\n' := by
    simpa [Char.isWhitespace] using h
  tauto

theorem digit_beq_nondigit {c : Char} (x : Char) (hc : c.isDigit = true)
    (hx : x.isDigit = false) : (c == x) = false := by
  rw [beq_eq_false_iff_ne]
  rintro rfl
  rw [hc] at hx
  exact Bool.true_eq_false.mp hx

theorem digit_not_ws {c : Char} (hc : c.isDigit = true) : c.isWhitespace = false := by
  cases hw : c.isWhitespace with
  | false => rfl
  | true =>
    rcases ws_cases hw with rfl | rfl | rfl | rfl <;> exact absurd hc (by decide)

theorem upper_not_ws {c : Char} (hc : c.isUpper = true) : c.isWhitespace = false := by
  cases hw : c.isWhitespace with
  | false => rfl
  | true =>
    rcases ws_cases hw with rfl | rfl | rfl | rfl <;> exact absurd hc (by decide)

/-! ## takeWhile / dropWhile facts -/

theorem dropWhile_all_append {p : Char → Bool} {w : List Char} (r : List Char)
    (h : ∀ c ∈ w, p c = true) :
    List.dropWhile p (w ++ r) = List.dropWhile p r := by
  induction w with
  | nil => rfl
  | cons a w ih =>
    rw [List.cons_append, List.dropWhile_cons_of_pos (h a (by simp))]
    exact ih fun c hc => h c (by simp [hc])

theorem dropWhile_eq_self_of_head {p : Char → Bool} {r : List Char}
    (h : ∀ x, r.head? = some x → p x = false) : List.dropWhile p r = r := by
  cases r with
  | nil => rfl
  | cons a r => exact List.dropWhile_cons_of_neg (by simp [h a rfl])

theorem takeWhile_all_append {p : Char → Bool} {t : List Char} (r : List Char)
    (ht : ∀ c ∈ t, p c = true) (hr : ∀ x, r.head? = some x → p x = false) :
    List.takeWhile p (t ++ r) = t := by
  induction t with
  | nil =>
    cases r with
    | nil => rfl
    | cons a r => exact List.takeWhile_cons_of_neg (by simp [hr a rfl])
  | cons a t ih =>
    rw [List.cons_append, List.takeWhile_cons_of_pos (ht a (by simp))]
    rw [ih fun c hc => ht c (by simp [hc])]

theorem head?_dropWhile_false {p : Char → Bool} (l : List Char)
    {x : Char} (h : (List.dropWhile p l).head? = some x) : p x = false := by
  induction l with
  | nil => simp [List.dropWhile] at h
  | cons a l ih =>
    rw [List.dropWhile_cons] at h
    by_cases hp : p a = true
    · exact ih (by simpa [hp] using h)
    · simp only [hp] at h
      simp at h
      rcases h with ⟨rfl, -⟩
      exact Bool.not_eq_true _ |>.mp hp

/-! ## splitCh facts -/

theorem splitCh_ne_nil (sep : Char) (cs : List Char) : splitCh sep cs ≠ [] := by
  cases cs with
  | nil => simp [splitCh]
  | cons c cs =>
    rw [splitCh]
    rcases h : splitCh sep cs with _ | ⟨fld, rest⟩
    · simp
    · by_cases hc : (c == sep) = true <;> simp [hc]

theorem splitCh_of_no_sep {sep : Char} {cs : List Char}
    (h : ∀ c ∈ cs, (c == sep) = false) : splitCh sep cs = [cs] := by
  induction cs with
  | nil => rfl
  | cons c cs ih =>
    rw [splitCh, ih fun x hx => h x (by simp [hx]), h c (by simp)]
    simp

theorem splitCh_append_sep {sep : Char} {xs : List Char} (ys : List Char)
    (h : ∀ c ∈ xs, (c == sep) = false) :
    splitCh sep (xs ++ sep :: ys) = xs :: splitCh sep ys := by
  induction xs with
  | nil =>
    rw [List.nil_append, splitCh]
    rcases hy : splitCh sep ys with _ | ⟨fld, rest⟩
    · exact absurd hy (splitCh_ne_nil sep ys)
    · simp
  | cons x xs ih =>
    rw [List.cons_append, splitCh, ih fun c hc => h c (by simp [hc]), h x (by simp)]
    simp

theorem string_mk_data (s : String) : (⟨s.data⟩ : String) = s := rfl

theorem noNL_no_sep {l : String} (h : noNL l = true) :
    ∀ c ∈ l.data, (c == '\n') = false := by
  intro c hc
  have := (List.all_eq_true.mp h) c hc
  simpa using this

theorem splitLines_unlines {ls : List String} (hne : ls ≠ [])
    (h : ∀ l ∈ ls, noNL l = true) : splitLines (unlines ls) = ls := by
  induction ls with
  | nil => exact absurd rfl hne
  | cons l ls ih =>
    cases ls with
    | nil =>
      have h1 : splitCh '\n' l.data = [l.data] :=
        splitCh_of_no_sep (noNL_no_sep (h l (by simp)))
      simp [splitLines, unlines, unlinesCh, h1]
    | cons l2 ls2 =>
      have hstep : unlinesCh (l :: l2 :: ls2) = l.data ++ '\n' :: unlinesCh (l2 :: ls2) := rfl
      have h2 : splitCh '\n' (unlinesCh (l :: l2 :: ls2))
          = l.data :: splitCh '\n' (unlinesCh (l2 :: ls2)) := by
        rw [hstep]
        exact splitCh_append_sep _ (noNL_no_sep (h l (by simp)))
      have ih2 := ih (by simp) fun x hx => h x (by simp [hx])
      simp only [splitLines, unlines] at ih2 ⊢
      rw [h2, List.map_cons, ih2, string_mk_data]

/-! ## pTS / cueMatch facts -/

theorem pTS_explicit (a b c d e f g h2 i : Char) (rest : List Char)
    (ha : a.isDigit = true) (hb : b.isDigit = true) (hc : c.isDigit = true)
    (hd : d.isDigit = true) (he : e.isDigit = true) (hf : f.isDigit = true)
    (hg : g.isDigit = true) (hh : h2.isDigit = true) (hi : i.isDigit = true) :
    pTS (a :: b :: ':' :: c :: d :: ':' :: e :: f :: '.' :: g :: h2 :: i :: rest)
      = some (⟨[a, b, ':', c, d, ':', e, f, '.', g, h2, i]⟩, rest) := by
  simp [pTS, ha, hb, hc, hd, he, hf, hg, hh, hi]

theorem pTS_inv {cs : List Char} {t : String} {r : List Char} (h : pTS cs = some (t, r)) :
    ∃ a b c d e f g h2 i : Char,
      cs = a :: b :: ':' :: c :: d :: ':' :: e :: f :: '.' :: g :: h2 :: i :: r
        ∧ t = ⟨[a, b, ':', c, d, ':', e, f, '.', g, h2, i]⟩
        ∧ a.isDigit = true ∧ b.isDigit = true ∧ c.isDigit = true ∧ d.isDigit = true
        ∧ e.isDigit = true ∧ f.isDigit = true ∧ g.isDigit = true ∧ h2.isDigit = true
        ∧ i.isDigit = true := by
  unfold pTS at h
  split at h
  · rename_i a b c d e f g h2 i rest
    split at h
    · rename_i hcond
      simp only [Bool.and_eq_true] at hcond
      obtain ⟨⟨⟨⟨⟨⟨⟨⟨ha, hb⟩, hc⟩, hd⟩, he⟩, hf⟩, hg⟩, hh⟩, hi⟩ := hcond
      simp only [Option.some.injEq, Prod.mk.injEq] at h
      obtain ⟨rfl, rfl⟩ := h
      exact ⟨a, b, c, d, e, f, g, h2, i, rfl, rfl, ha, hb, hc, hd, he, hf, hg, hh, hi⟩
    · exact absurd h (by simp)
  · exact absurd h (by simp)

theorem tsShape_iff {s : String} : tsShape s = true ↔ pTS s.data = some (s, []) := by
  simp [tsShape]

theorem tsShape_explicit (a b c d e f g h2 i : Char)
    (ha : a.isDigit = true) (hb : b.isDigit = true) (hc : c.isDigit = true)
    (hd : d.isDigit = true) (he : e.isDigit = true) (hf : f.isDigit = true)
    (hg : g.isDigit = true) (hh : h2.isDigit = true) (hi : i.isDigit = true) :
    tsShape (⟨[a, b, ':', c, d, ':', e, f, '.', g, h2, i]⟩ : String) = true := by
  rw [tsShape_iff]
  exact pTS_explicit a b c d e f g h2 i [] ha hb hc hd he hf hg hh hi

theorem cueMatch_inv {l : String} {st en : String} (h : cueMatch l = some (st, en)) :
    tsShape st = true ∧ tsShape en = true := by
  unfold cueMatch at h
  split at h
  · rename_i st' r1 heq1
    split at h
    · rename_i r2 heq2
      split at h
      · rename_i en' r3 heq3
        simp only [Option.some.injEq, Prod.mk.injEq] at h
        obtain ⟨rfl, rfl⟩ := h
        constructor
        · obtain ⟨a, b, c, d, e, f, g, h2, i, -, rfl, hds⟩ := pTS_inv heq1
          exact tsShape_explicit a b c d e f g h2 i hds.1 hds.2.1 hds.2.2.1 hds.2.2.2.1
            hds.2.2.2.2.1 hds.2.2.2.2.2.1 hds.2.2.2.2.2.2.1 hds.2.2.2.2.2.2.2.1
            hds.2.2.2.2.2.2.2.2
        · obtain ⟨a, b, c, d, e, f, g, h2, i, -, rfl, hds⟩ := pTS_inv heq3
          exact tsShape_explicit a b c d e f g h2 i hds.1 hds.2.1 hds.2.2.1 hds.2.2.2.1
            hds.2.2.2.2.1 hds.2.2.2.2.2.1 hds.2.2.2.2.2.2.1 hds.2.2.2.2.2.2.2.1
            hds.2.2.2.2.2.2.2.2
      · exact absurd h (by simp)
    · exact absurd h (by simp)
  · exact absurd h (by simp)

theorem stripChars_eq_self {cs : List Char}
    (h1 : ∀ x, cs.head? = some x → x.isWhitespace = false)
    (h2 : ∀ x, cs.getLast? = some x → x.isWhitespace = false) :
    stripChars cs = cs := by
  unfold stripChars
  rw [dropWhile_eq_self_of_head h1]
  rw [dropWhile_eq_self_of_head (by rw [List.head?_reverse]; exact h2), List.reverse_reverse]

theorem strip_renderCueLine {st en : String} (hst : tsShape st = true)
    (hen : tsShape en = true) :
    strip (renderCueLine st en) = renderCueLine st en := by
  obtain ⟨a, b, c, d, e, f, g, h2, i, hdat, -, hds⟩ := pTS_inv (tsShape_iff.mp hst)
  obtain ⟨a2, b2, c2, d2, e2, f2, g2, h3, i2, hdat2, -, hds2⟩ := pTS_inv (tsShape_iff.mp hen)
  have hmk : strip (renderCueLine st en)
      = ⟨stripChars (st.data ++ ' ' :: '-' :: '-' :: '>' :: ' ' :: en.data)⟩ := rfl
  rw [hmk]
  rw [stripChars_eq_self]
  · rfl
  · intro x hx
    rw [hdat] at hx
    simp only [List.cons_append, List.head?_cons, Option.some.injEq] at hx
    rw [← hx]
    exact digit_not_ws hds.1
  · intro x hx
    rw [hdat2, List.getLast?_append] at hx
    have hlast : ([' ', '-', '-', '>', ' ', a2, b2, ':', c2, d2, ':', e2, f2, '.',
        g2, h3, i2] : List Char).getLast? = some i2 := rfl
    rw [hlast] at hx
    simp only [Option.or_some, Option.some.injEq] at hx
    rw [← hx]
    exact digit_not_ws hds2.2.2.2.2.2.2.2.2

theorem cueMatch_renderCueLine {st en : String} (hst : tsShape st = true)
    (hen : tsShape en = true) :
    cueMatch (renderCueLine st en) = some (st, en) := by
  obtain ⟨a, b, c, d, e, f, g, h2, i, hdat, hmk, hds⟩ := pTS_inv (tsShape_iff.mp hst)
  obtain ⟨a2, b2, c2, d2, e2, f2, g2, h3, i2, hdat2, hmk2, hds2⟩ := pTS_inv (tsShape_iff.mp hen)
  obtain ⟨ha, hb, hc, hd, he, hf, hg, hh, hi⟩ := hds
  obtain ⟨ha2, hb2, hc2, hd2, he2, hf2, hg2, hh2, hi2⟩ := hds2
  have hline : (renderCueLine st en).data
      = a :: b :: ':' :: c :: d :: ':' :: e :: f :: '.' :: g :: h2 :: i ::
        (' ' :: '-' :: '-' :: '>' :: ' ' :: en.data) := by
    show st.data ++ ' ' :: '-' :: '-' :: '>' :: ' ' :: en.data = _
    rw [hdat]
    rfl
  have e1 : pTS (renderCueLine st en).data
      = some (st, ' ' :: '-' :: '-' :: '>' :: ' ' :: en.data) := by
    rw [hline, pTS_explicit a b c d e f g h2 i _ ha hb hc hd he hf hg hh hi, ← hmk]
  have e2 : List.dropWhile Char.isWhitespace
      (' ' :: '-' :: '-' :: '>' :: ' ' :: en.data)
      = '-' :: '-' :: '>' :: (' ' :: en.data) := by
    rw [List.dropWhile_cons_of_pos (by decide), List.dropWhile_cons_of_neg (by decide)]
  have e3 : List.dropWhile Char.isWhitespace (' ' :: en.data) = en.data := by
    rw [List.dropWhile_cons_of_pos (by decide)]
    apply dropWhile_eq_self_of_head
    intro x hx
    rw [hdat2] at hx
    simp only [List.head?_cons, Option.some.injEq] at hx
    rw [← hx]
    exact digit_not_ws ha2
  have e4 : pTS en.data = some (en, []) := tsShape_iff.mp hen
  simp only [cueMatch, e1, e2, e3, e4]

theorem noNL_renderCueLine {st en : String} (hst : tsShape st = true)
    (hen : tsShape en = true) : noNL (renderCueLine st en) = true := by
  obtain ⟨a, b, c, d, e, f, g, h2, i, hdat, -, hds⟩ := pTS_inv (tsShape_iff.mp hst)
  obtain ⟨a2, b2, c2, d2, e2, f2, g2, h3, i2, hdat2, -, hds2⟩ := pTS_inv (tsShape_iff.mp hen)
  obtain ⟨ha, hb, hc, hd, he, hf, hg, hh, hi⟩ := hds
  obtain ⟨ha2, hb2, hc2, hd2, he2, hf2, hg2, hh2, hi2⟩ := hds2
  rw [noNL, List.all_eq_true]
  intro x hx
  have hdata : (renderCueLine st en).data
      = st.data ++ ' ' :: '-' :: '-' :: '>' :: ' ' :: en.data := rfl
  rw [hdata, hdat, hdat2] at hx
  simp only [List.mem_append, List.mem_cons, List.not_mem_nil, or_false] at hx
  have key : ∀ y : Char, y.isDigit = true → (!(y == '\n')) = true := by
    intro y hy
    rw [digit_beq_nondigit '\n' hy (by decide)]
    rfl
  rcases hx with hx | hx
  · rcases hx with rfl | rfl | rfl | rfl | rfl | rfl | rfl | rfl | rfl | rfl | rfl | rfl <;>
      first
        | exact key _ (by assumption)
        | decide
  · rcases hx with rfl | rfl | rfl | rfl | rfl | rfl | rfl | rfl | rfl | rfl | rfl | rfl |
        rfl | rfl | rfl | rfl | rfl <;>
      first
        | exact key _ (by assumption)
        | decide

/-! ## parseGo facts -/

theorem parseGo_none_cons (l : String) (ls : List String) :
    parseGo none (l :: ls)
      = (match cueMatch (strip l) with
         | some (st, en) => parseGo (some (st, en, [])) ls
         | none => parseGo none ls) := rfl

theorem parseGo_some_cons (st en : String) (texts : List String) (l : String)
    (ls : List String) :
    parseGo (some (st, en, texts)) (l :: ls)
      = if strip l ≠ "" ∧ cueMatch l = none then
          parseGo (some (st, en, texts ++ [strip l])) ls
        else
          mkSeg st en texts ::
            (match cueMatch (strip l) with
             | some (st2, en2) => parseGo (some (st2, en2, [])) ls
             | none => parseGo none ls) := rfl

theorem parseGo_skip {junk : List String} (rest : List String)
    (h : ∀ l ∈ junk, cueMatch (strip l) = none) :
    parseGo none (junk ++ rest) = parseGo none rest := by
  induction junk with
  | nil => rfl
  | cons l junk ih =>
    rw [List.cons_append, parseGo_none_cons, h l (by simp)]
    exact ih fun x hx => h x (by simp [hx])

theorem parseGo_absorb {ps : List String} (st en : String) (texts : List String)
    (rest : List String) (h : ∀ l ∈ ps, strip l ≠ "" ∧ cueMatch l = none) :
    parseGo (some (st, en, texts)) (ps ++ rest)
      = parseGo (some (st, en, texts ++ ps.map strip)) rest := by
  induction ps generalizing texts with
  | nil => simp
  | cons p ps ih =>
    rw [List.cons_append, parseGo_some_cons, if_pos (h p (by simp))]
    rw [ih (texts ++ [strip p]) fun x hx => h x (by simp [hx])]
    simp

theorem parseGo_blank (st en : String) (texts rest : List String) :
    parseGo (some (st, en, texts)) ("" :: rest)
      = mkSeg st en texts :: parseGo none rest := by
  rw [parseGo_some_cons, if_neg (by simp [strip, stripChars])]
  have hcm : cueMatch (strip "") = none := rfl
  rw [hcm]

theorem parseGo_renderAll (blocks : List (List String × Block))
    (hj : ∀ jb ∈ blocks, ∀ l ∈ jb.1, cueMatch (strip l) = none)
    (hb : ∀ jb ∈ blocks, GoodBlock jb.2) :
    parseGo none (renderAll blocks) = blocks.map fun jb => segOfBlock jb.2 := by
  induction blocks with
  | nil => rfl
  | cons jb blocks ih =>
    obtain ⟨junk, b⟩ := jb
    obtain ⟨hst, hen, hpl⟩ := hb (junk, b) (by simp)
    have hra : renderAll ((junk, b) :: blocks)
        = junk ++ (renderCueLine b.start b.stop ::
            (b.payload ++ ("" :: renderAll blocks))) := by
      simp [renderAll, renderBlock]
    rw [hra, parseGo_skip _ (hj (junk, b) (by simp)), parseGo_none_cons,
      strip_renderCueLine hst hen, cueMatch_renderCueLine hst hen]
    show parseGo (some (b.start, b.stop, [])) (b.payload ++ "" :: renderAll blocks)
      = List.map (fun jb => segOfBlock jb.2) ((junk, b) :: blocks)
    rw [parseGo_absorb b.start b.stop [] ("" :: renderAll blocks)
        (fun l hl => ⟨(hpl l hl).1, (hpl l hl).2.1⟩),
      parseGo_blank, ih (fun x hx => hj x (by simp [hx])) (fun x hx => hb x (by simp [hx]))]
    simp [segOfBlock]

theorem parseGo_tsShape (lines : List String) :
    ∀ cur, (∀ st en texts, cur = some (st, en, texts) → tsShape st = true ∧ tsShape en = true) →
      ∀ s ∈ parseGo cur lines, tsShape s.start = true ∧ tsShape s.stop = true := by
  induction lines with
  | nil =>
    intro cur hcur s hs
    match cur with
    | none => simp [parseGo] at hs
    | some (st, en, texts) =>
      simp only [parseGo, List.mem_singleton] at hs
      rw [hs]
      exact hcur st en texts rfl
  | cons l ls ih =>
    intro cur hcur s hs
    match cur with
    | none =>
      rw [parseGo_none_cons] at hs
      rcases hcm : cueMatch (strip l) with - | ⟨st, en⟩
      · rw [hcm] at hs
        exact ih none (by simp) s hs
      · rw [hcm] at hs
        refine ih _ ?_ s hs
        rintro st' en' texts' heq
        simp only [Option.some.injEq, Prod.mk.injEq] at heq
        obtain ⟨rfl, rfl, -⟩ := heq
        exact cueMatch_inv hcm
    | some (st, en, texts) =>
      rw [parseGo_some_cons] at hs
      by_cases hcond : strip l ≠ "" ∧ cueMatch l = none
      · rw [if_pos hcond] at hs
        refine ih _ ?_ s hs
        rintro st' en' texts' heq
        simp only [Option.some.injEq, Prod.mk.injEq] at heq
        obtain ⟨rfl, rfl, -⟩ := heq
        exact hcur st en texts rfl
      · rw [if_neg hcond] at hs
        rcases List.mem_cons.mp hs with rfl | hs2
        · exact hcur st en texts rfl
        · rcases hcm : cueMatch (strip l) with - | ⟨st2, en2⟩
          · rw [hcm] at hs2
            exact ih none (by simp) s hs2
          · rw [hcm] at hs2
            refine ih _ ?_ s hs2
            rintro st' en' texts' heq
            simp only [Option.some.injEq, Prod.mk.injEq] at heq
            obtain ⟨rfl, rfl, -⟩ := heq
            exact cueMatch_inv hcm

/-! ## sec? facts -/

theorem sec?_explicit (a b c d e f g h2 i : Char)
    (ha : a.isDigit = true) (hb : b.isDigit = true) (hc : c.isDigit = true)
    (hd : d.isDigit = true) (he : e.isDigit = true) (hf : f.isDigit = true)
    (hg : g.isDigit = true) (hh : h2.isDigit = true) (hi : i.isDigit = true) :
    sec? (⟨[a, b, ':', c, d, ':', e, f, '.', g, h2, i]⟩ : String)
      = some (((10 * (a.toNat - 48) + (b.toNat - 48) : Nat) : ℚ) * 3600
          + ((10 * (c.toNat - 48) + (d.toNat - 48) : Nat) : ℚ) * 60
          + ((10 * (e.toNat - 48) + (f.toNat - 48) : Nat) : ℚ)
          + ((10 * (10 * (g.toNat - 48) + (h2.toNat - 48)) + (i.toNat - 48) : Nat) : ℚ) / 1000) := by
  have hsplit : splitCh ':' [a, b, ':', c, d, ':', e, f, '.', g, h2, i]
      = [[a, b], [c, d], [e, f, '.', g, h2, i]] := by
    simp [splitCh, digit_beq_nondigit ':' ha (by decide), digit_beq_nondigit ':' hb (by decide),
      digit_beq_nondigit ':' hc (by decide), digit_beq_nondigit ':' hd (by decide),
      digit_beq_nondigit ':' he (by decide), digit_beq_nondigit ':' hf (by decide),
      digit_beq_nondigit ':' hg (by decide), digit_beq_nondigit ':' hh (by decide),
      digit_beq_nondigit ':' hi (by decide)]
  have hsplit2 : splitCh '.' [e, f, '.', g, h2, i] = [[e, f], [g, h2, i]] := by
    simp [splitCh, digit_beq_nondigit '.' he (by decide), digit_beq_nondigit '.' hf (by decide),
      digit_beq_nondigit '.' hg (by decide), digit_beq_nondigit '.' hh (by decide),
      digit_beq_nondigit '.' hi (by decide)]
  have hn1 : natOf [a, b] = some (10 * (a.toNat - 48) + (b.toNat - 48)) := by
    simp [natOf, ha, hb, List.foldl]
  have hn2 : natOf [c, d] = some (10 * (c.toNat - 48) + (d.toNat - 48)) := by
    simp [natOf, hc, hd, List.foldl]
  have hn3 : natOf [e, f] = some (10 * (e.toNat - 48) + (f.toNat - 48)) := by
    simp [natOf, he, hf, List.foldl]
  have hn4 : natOf [g, h2, i]
      = some (10 * (10 * (g.toNat - 48) + (h2.toNat - 48)) + (i.toNat - 48)) := by
    simp [natOf, hg, hh, hi, List.foldl]
  simp only [sec?, hsplit, hsplit2, hn1, hn2, hn3, hn4]

theorem sec?_isSome_of_tsShape {s : String} (h : tsShape s = true) :
    (sec? s).isSome = true := by
  obtain ⟨a, b, c, d, e, f, g, h2, i, -, hmk, hds⟩ := pTS_inv (tsShape_iff.mp h)
  obtain ⟨ha, hb, hc, hd, he, hf, hg, hh, hi⟩ := hds
  rw [hmk, sec?_explicit a b c d e f g h2 i ha hb hc hd he hf hg hh hi]
  rfl

theorem ofNat_digit_isDigit {d : Nat} (h : d ≤ 9) :
    (Char.ofNat (48 + d)).isDigit = true := by
  interval_cases d <;> decide

theorem ofNat_digit_toNat {d : Nat} (h : d ≤ 9) : (Char.ofNat (48 + d)).toNat = 48 + d := by
  interval_cases d <;> decide

/-! ## merge_short facts -/

theorem foldl_mergeStep_eq (gap : ℚ) (l : List Seg) :
    ∀ (s : Seg) (acc : List Seg),
      (List.foldl (mergeStep gap) (s :: acc) l).reverse
        = acc.reverse ++ mergeSpecGo gap s l := by
  induction l with
  | nil => intro s acc; simp [mergeSpecGo]
  | cons x l ih =>
    intro s acc
    rw [List.foldl_cons]
    by_cases hcond : x.speaker = s.speaker ∧ 0 ≤ sec x.start - sec s.stop
        ∧ sec x.start - sec s.stop ≤ gap
    · have hstep : mergeStep gap (s :: acc) x
          = ⟨s.start, x.stop, s.speaker, s.text ++ " " ++ x.text⟩ :: acc := by
        simp only [mergeStep, if_pos hcond]
      rw [hstep, ih]
      rw [mergeSpecGo, if_pos hcond]
    · have hstep : mergeStep gap (s :: acc) x = x :: s :: acc := by
        simp only [mergeStep, if_neg hcond]
      rw [hstep, ih]
      rw [mergeSpecGo, if_neg hcond]
      simp

/-! ## chunkGo facts -/

theorem chunkGo_zero (segs : List Seg) (window overlap endA cur : ℚ) :
    chunkGo segs window overlap endA 0 cur
      = if cur < endA then none else some [] := rfl

theorem chunkGo_succ (segs : List Seg) (window overlap endA cur : ℚ) (fuel : Nat) :
    chunkGo segs window overlap endA (fuel + 1) cur
      = if cur < endA then
          match chunkGo segs window overlap endA fuel (cur + window - overlap) with
          | some ws =>
            some (⟨cur, min (cur + window) endA,
                   segs.filter fun s =>
                     decide (sec s.start < cur + window) && decide (sec s.stop > cur)⟩ :: ws)
          | none => none
        else some [] := rfl

theorem chunkGo_items {segs : List Seg} {window overlap endA : ℚ} :
    ∀ (fuel : Nat) (cur : ℚ) (ws : List Window),
      chunkGo segs window overlap endA fuel cur = some ws →
      ∀ w ∈ ws, w.items
        = segs.filter fun s =>
            decide (sec s.start < w.start + window) && decide (sec s.stop > w.start) := by
  intro fuel
  induction fuel with
  | zero =>
    intro cur ws h w hw
    rw [chunkGo_zero] at h
    split at h
    · exact absurd h (by simp)
    · simp only [Option.some.injEq] at h
      rw [← h] at hw
      simp at hw
  | succ fuel ih =>
    intro cur ws h w hw
    rw [chunkGo_succ] at h
    split at h
    · split at h
      · rename_i ws' hrec
        simp only [Option.some.injEq] at h
        rw [← h] at hw
        rcases List.mem_cons.mp hw with rfl | hw2
        · rfl
        · exact ih _ ws' hrec w hw2
      · exact absurd h (by simp)
    · simp only [Option.some.injEq] at h
      rw [← h] at hw
      simp at hw

theorem chunkGo_starts {segs : List Seg} {window overlap endA : ℚ} :
    ∀ (fuel : Nat) (cur : ℚ) (ws : List Window),
      chunkGo segs window overlap endA fuel cur = some ws →
      ∀ i : Nat, ∀ hi : i < ws.length,
        (ws.get ⟨i, hi⟩).start = cur + i * (window - overlap) := by
  intro fuel
  induction fuel with
  | zero =>
    intro cur ws h i hi
    rw [chunkGo_zero] at h
    split at h
    · exact absurd h (by simp)
    · simp only [Option.some.injEq] at h
      rw [← h] at hi
      simp at hi
  | succ fuel ih =>
    intro cur ws h i hi
    rw [chunkGo_succ] at h
    split at h
    · split at h
      · rename_i ws' hrec
        simp only [Option.some.injEq] at h
        subst h
        match i with
        | 0 => simp
        | Nat.succ j =>
          have hj : j < ws'.length := by simpa using hi
          have := ih _ ws' hrec j hj
          simp only [List.get_cons_succ]
          rw [this]
          push_cast
          ring
      · exact absurd h (by simp)
    · simp only [Option.some.injEq] at h
      rw [← h] at hi
      simp at hi

theorem chunkGo_stops {segs : List Seg} {window overlap endA : ℚ} :
    ∀ (fuel : Nat) (cur : ℚ) (ws : List Window),
      chunkGo segs window overlap endA fuel cur = some ws →
      ∀ w ∈ ws, w.stop = min (w.start + window) endA := by
  intro fuel
  induction fuel with
  | zero =>
    intro cur ws h w hw
    rw [chunkGo_zero] at h
    split at h
    · exact absurd h (by simp)
    · simp only [Option.some.injEq] at h
      rw [← h] at hw
      simp at hw
  | succ fuel ih =>
    intro cur ws h w hw
    rw [chunkGo_succ] at h
    split at h
    · split at h
      · rename_i ws' hrec
        simp only [Option.some.injEq] at h
        rw [← h] at hw
        rcases List.mem_cons.mp hw with rfl | hw2
        · rfl
        · exact ih _ ws' hrec w hw2
      · exact absurd h (by simp)
    · simp only [Option.some.injEq] at h
      rw [← h] at hw
      simp at hw

theorem chunkGo_cover {segs : List Seg} {window overlap endA : ℚ}
    (hov : 0 ≤ overlap) (hlt : overlap < window) :
    ∀ (fuel : Nat) (cur : ℚ) (ws : List Window),
      chunkGo segs window overlap endA fuel cur = some ws →
      ∀ t : ℚ, (cur ≤ t ∧ t < endA) ↔ ∃ w ∈ ws, w.start ≤ t ∧ t < w.stop := by
  intro fuel
  induction fuel with
  | zero =>
    intro cur ws h t
    rw [chunkGo_zero] at h
    split at h
    · exact absurd h (by simp)
    · rename_i hcur
      simp only [Option.some.injEq] at h
      subst h
      push_neg at hcur
      constructor
      · rintro ⟨h1, h2⟩
        exact absurd (lt_of_le_of_lt (le_trans hcur h1) h2) (lt_irrefl endA)
      · rintro ⟨w, hw, -⟩
        simp at hw
  | succ fuel ih =>
    intro cur ws h t
    rw [chunkGo_succ] at h
    split at h
    · rename_i hcur
      split at h
      · rename_i ws' hrec
        simp only [Option.some.injEq] at h
        subst h
        have ihc := ih _ ws' hrec t
        constructor
        · rintro ⟨h1, h2⟩
          by_cases hfirst : t < min (cur + window) endA
          · exact ⟨_, List.mem_cons_self _ _, h1, hfirst⟩
          · push_neg at hfirst
            rw [min_le_iff] at hfirst
            rcases hfirst with hf | hf
            · have hnext : cur + window - overlap ≤ t := by linarith
              obtain ⟨w, hw, hw2⟩ := ihc.mp ⟨hnext, h2⟩
              exact ⟨w, by simp [hw], hw2⟩
            · exact absurd (lt_of_le_of_lt hf h2) (lt_irrefl endA)
        · rintro ⟨w, hw, hw1, hw2⟩
          rcases List.mem_cons.mp hw with rfl | hw3
          · exact ⟨hw1, lt_of_lt_of_le hw2 (by simp)⟩
          · have := ihc.mpr ⟨w, hw3, hw1, hw2⟩
            exact ⟨by linarith [this.1], this.2⟩
      · exact absurd h (by simp)
    · rename_i hcur
      simp only [Option.some.injEq] at h
      subst h
      push_neg at hcur
      constructor
      · rintro ⟨h1, h2⟩
        exact absurd (lt_of_le_of_lt (le_trans hcur h1) h2) (lt_irrefl endA)
      · rintro ⟨w, hw, -⟩
        simp at hw

/-! ## speakerMatch facts -/

theorem speakerMatch_cons (text : String) {c : Char} {rest : List Char}
    (hdw : text.data.dropWhile Char.isWhitespace = c :: rest) :
    speakerMatch text
      = if c.isUpper then
          if (rest.takeWhile isSpkChar).length ≤ 40 then
            match rest.dropWhile isSpkChar with
            | ':' :: tail =>
              some (⟨c :: rest.takeWhile isSpkChar⟩, ⟨tail.dropWhile Char.isWhitespace⟩)
            | _ => none
          else none
        else none := by
  unfold speakerMatch
  rw [hdw]

theorem speakerMatch_iff (text s b : String) :
    speakerMatch text = some (s, b) ↔ SpeakerDecomp text s b := by
  constructor
  · intro h
    rcases hdw : text.data.dropWhile Char.isWhitespace with - | ⟨c, rest⟩
    · unfold speakerMatch at h
      rw [hdw] at h
      simp at h
    · rw [speakerMatch_cons text hdw] at h
      by_cases hup : c.isUpper = true
      · rw [if_pos hup] at h
        by_cases hlen : (rest.takeWhile isSpkChar).length ≤ 40
        · rw [if_pos hlen] at h
          split at h
          · rename_i tail heq2
            simp only [Option.some.injEq, Prod.mk.injEq] at h
            obtain ⟨rfl, rfl⟩ := h
            refine ⟨text.data.takeWhile Char.isWhitespace, tail.takeWhile Char.isWhitespace,
              c, rest.takeWhile isSpkChar, ?_, ?_, hup, ?_, hlen, ?_, ?_, rfl⟩
            · have hd1 : text.data
                  = text.data.takeWhile Char.isWhitespace ++ (c :: rest) := by
                rw [← hdw, List.takeWhile_append_dropWhile]
              have hd2 : rest = rest.takeWhile isSpkChar ++ ':' :: tail := by
                rw [← heq2, List.takeWhile_append_dropWhile]
              have hd3 : tail = tail.takeWhile Char.isWhitespace
                  ++ List.dropWhile Char.isWhitespace tail := by
                rw [List.takeWhile_append_dropWhile]
              conv_lhs => rw [hd1]
              nth_rewrite 1 [hd2]
              nth_rewrite 1 [hd3]
              simp
            · intro x hx
              exact List.mem_takeWhile_imp hx
            · intro x hx
              exact List.mem_takeWhile_imp hx
            · intro x hx
              exact List.mem_takeWhile_imp hx
            · intro x hx
              exact head?_dropWhile_false tail hx
          · exact absurd h (by simp)
        · rw [if_neg hlen] at h
          exact absurd h (by simp)
      · rw [if_neg hup] at h
        exact absurd h (by simp)
  · rintro ⟨w1, w2, c, t, hdat, hw1, hup, ht, hlen, hw2, hbh, hs⟩
    have e1 : text.data.dropWhile Char.isWhitespace = c :: (t ++ ':' :: (w2 ++ b.data)) := by
      rw [hdat, List.append_assoc, dropWhile_all_append _ hw1]
      rw [show (c :: t) ++ ':' :: (w2 ++ b.data) = c :: (t ++ ':' :: (w2 ++ b.data)) from by simp]
      exact dropWhile_eq_self_of_head fun x hx => by
        simp only [List.head?_cons, Option.some.injEq] at hx
        rw [← hx]
        exact upper_not_ws hup
    have e2 : List.takeWhile isSpkChar (t ++ ':' :: (w2 ++ b.data)) = t :=
      takeWhile_all_append _ ht fun x hx => by
        simp only [List.head?_cons, Option.some.injEq] at hx
        rw [← hx]
        decide
    have e3 : List.dropWhile isSpkChar (t ++ ':' :: (w2 ++ b.data)) = ':' :: (w2 ++ b.data) := by
      rw [dropWhile_all_append _ ht]
      exact dropWhile_eq_self_of_head fun x hx => by
        simp only [List.head?_cons, Option.some.injEq] at hx
        rw [← hx]
        decide
    have e4 : List.dropWhile Char.isWhitespace (w2 ++ b.data) = b.data := by
      rw [dropWhile_all_append _ hw2]
      exact dropWhile_eq_self_of_head hbh
    have hsb : (⟨c :: t⟩ : String) = s := by
      rw [← hs]
    have hbb : (⟨b.data⟩ : String) = b := string_mk_data b
    rw [← hsb, ← hbb]
    simp [speakerMatch, e1, hup, e2, e3, e4, hlen]

theorem merge_short_eq_mergeSpec (segs : List Seg) (gap : ℚ) :
    merge_short segs gap = mergeSpec gap segs := by
  cases segs with
  | nil => rfl
  | cons s l =>
    unfold merge_short mergeSpec
    rw [List.foldl_cons]
    rw [show mergeStep gap [] s = [s] from rfl]
    simpa using foldl_mergeStep_eq gap l s []

theorem noNL_renderAll (blocks : List (List String × Block))
    (hj : ∀ jb ∈ blocks, ∀ l ∈ jb.1, JunkLine l)
    (hb : ∀ jb ∈ blocks, GoodBlock jb.2) :
    ∀ l ∈ renderAll blocks, noNL l = true := by
  induction blocks with
  | nil => intro l hl; simp [renderAll] at hl
  | cons jb blocks ih =>
    intro l hl
    simp only [renderAll, List.map_cons, List.flatten_cons, List.mem_append] at hl
    rcases hl with hl | hl
    · rcases hl with hl | hl
      · exact (hj jb (by simp) l hl).2
      · obtain ⟨hst, hen, hpl⟩ := hb jb (by simp)
        rcases List.mem_cons.mp hl with rfl | hl
        · exact noNL_renderCueLine hst hen
        · rcases List.mem_append.mp hl with hl2 | hl2
          · exact (hpl l hl2).2.2
          · rw [List.mem_singleton.mp hl2]
            rfl
    · exact ih (fun x hx => hj x (by simp [hx])) (fun x hx => hb x (by simp [hx])) l hl

theorem renderAll_cons (jb : List String × Block) (blocks : List (List String × Block)) :
    renderAll (jb :: blocks)
      = jb.1 ++ (renderCueLine jb.2.start jb.2.stop ::
          (jb.2.payload ++ ("" :: renderAll blocks))) := by
  simp [renderAll, renderBlock]

/-! ## Concrete evaluations (ℚ arithmetic via norm_num) -/

theorem dch0 : ('0'.toNat : Nat) = 48 := rfl

theorem dch1 : ('1'.toNat : Nat) = 49 := rfl

theorem dch2 : ('2'.toNat : Nat) = 50 := rfl

theorem dch3 : ('3'.toNat : Nat) = 51 := rfl

theorem dch4 : ('4'.toNat : Nat) = 52 := rfl

theorem dch5 : ('5'.toNat : Nat) = 53 := rfl

theorem dch6 : ('6'.toNat : Nat) = 54 := rfl

theorem secv0 : sec ("00:00:00.000") = 0 := by
  rw [show ("00:00:00.000" : String)
      = (⟨['0', '0', ':', '0', '0', ':', '0', '0', '.', '0', '0', '0']⟩ : String) from by decide]
  rw [sec, sec?_explicit '0' '0' '0' '0' '0' '0' '0' '0' '0' (by decide) (by decide) (by decide)
    (by decide) (by decide) (by decide) (by decide) (by decide) (by decide), Option.getD_some]
  norm_num [dch0]

theorem secv1 : sec ("00:00:01.000") = 1 := by
  rw [show ("00:00:01.000" : String)
      = (⟨['0', '0', ':', '0', '0', ':', '0', '1', '.', '0', '0', '0']⟩ : String) from by decide]
  rw [sec, sec?_explicit '0' '0' '0' '0' '0' '1' '0' '0' '0' (by decide) (by decide) (by decide)
    (by decide) (by decide) (by decide) (by decide) (by decide) (by decide), Option.getD_some]
  norm_num [dch0, dch1]

theorem secv2 : sec ("00:00:02.000") = 2 := by
  rw [show ("00:00:02.000" : String)
      = (⟨['0', '0', ':', '0', '0', ':', '0', '2', '.', '0', '0', '0']⟩ : String) from by decide]
  rw [sec, sec?_explicit '0' '0' '0' '0' '0' '2' '0' '0' '0' (by decide) (by decide) (by decide)
    (by decide) (by decide) (by decide) (by decide) (by decide) (by decide), Option.getD_some]
  norm_num [dch0, dch2]

theorem secv3 : sec ("00:00:03.000") = 3 := by
  rw [show ("00:00:03.000" : String)
      = (⟨['0', '0', ':', '0', '0', ':', '0', '3', '.', '0', '0', '0']⟩ : String) from by decide]
  rw [sec, sec?_explicit '0' '0' '0' '0' '0' '3' '0' '0' '0' (by decide) (by decide) (by decide)
    (by decide) (by decide) (by decide) (by decide) (by decide) (by decide), Option.getD_some]
  norm_num [dch0, dch3]

theorem secv10 : sec ("00:00:10.000") = 10 := by
  rw [show ("00:00:10.000" : String)
      = (⟨['0', '0', ':', '0', '0', ':', '1', '0', '.', '0', '0', '0']⟩ : String) from by decide]
  rw [sec, sec?_explicit '0' '0' '0' '0' '1' '0' '0' '0' '0' (by decide) (by decide) (by decide)
    (by decide) (by decide) (by decide) (by decide) (by decide) (by decide), Option.getD_some]
  norm_num [dch0, dch1]

theorem secv350 : sec ("00:05:50.000") = 350 := by
  rw [show ("00:05:50.000" : String)
      = (⟨['0', '0', ':', '0', '5', ':', '5', '0', '.', '0', '0', '0']⟩ : String) from by decide]
  rw [sec, sec?_explicit '0' '0' '0' '5' '5' '0' '0' '0' '0' (by decide) (by decide) (by decide)
    (by decide) (by decide) (by decide) (by decide) (by decide) (by decide), Option.getD_some]
  norm_num [dch0, dch5]

theorem secv360 : sec ("00:06:00.000") = 360 := by
  rw [show ("00:06:00.000" : String)
      = (⟨['0', '0', ':', '0', '6', ':', '0', '0', '.', '0', '0', '0']⟩ : String) from by decide]
  rw [sec, sec?_explicit '0' '0' '0' '6' '0' '0' '0' '0' '0' (by decide) (by decide) (by decide)
    (by decide) (by decide) (by decide) (by decide) (by decide) (by decide), Option.getD_some]
  norm_num [dch0, dch6]

theorem secv370 : sec ("00:06:10.000") = 370 := by
  rw [show ("00:06:10.000" : String)
      = (⟨['0', '0', ':', '0', '6', ':', '1', '0', '.', '0', '0', '0']⟩ : String) from by decide]
  rw [sec, sec?_explicit '0' '0' '0' '6' '1' '0' '0' '0' '0' (by decide) (by decide) (by decide)
    (by decide) (by decide) (by decide) (by decide) (by decide) (by decide), Option.getD_some]
  norm_num [dch0, dch1, dch6]

theorem secv1000 : sec ("00:16:40.000") = 1000 := by
  rw [show ("00:16:40.000" : String)
      = (⟨['0', '0', ':', '1', '6', ':', '4', '0', '.', '0', '0', '0']⟩ : String) from by decide]
  rw [sec, sec?_explicit '0' '0' '1' '6' '4' '0' '0' '0' '0' (by decide) (by decide) (by decide)
    (by decide) (by decide) (by decide) (by decide) (by decide) (by decide), Option.getD_some]
  norm_num [dch0, dch1, dch4, dch6]

theorem chunkOpt_segsEx1 : chunkOpt segsEx1 360 20 = some wsEx1 := by
  have hfuel : chunkFuel segsEx1 360 20 = 4 := by
    norm_num [chunkFuel, startAll, endAll, segsEx1, segEx1a, segEx1mid, segEx1c, secv0,
      secv1000, Rat.ceil, Int.toNat]
  rw [show chunkOpt segsEx1 360 20
      = chunkGo segsEx1 360 20 (endAll segsEx1) (chunkFuel segsEx1 360 20) (startAll segsEx1)
      from rfl, hfuel]
  rw [show endAll segsEx1 = 1000 from by norm_num [endAll, segsEx1, segEx1c, secv1000]]
  rw [show startAll segsEx1 = 0 from by norm_num [startAll, segsEx1, segEx1a, secv0]]
  norm_num [chunkGo_succ, chunkGo_zero, List.filter, wsEx1, segsEx1, segEx1a, segEx1mid,
    segEx1c, secv0, secv350, secv370, secv1000, min_def]

theorem chunkOpt_segsEx2 : chunkOpt segsEx2 360 20 = some [⟨0, 10, segsEx2⟩] := by
  have hfuel : chunkFuel segsEx2 360 20 = 2 := by
    norm_num [chunkFuel, startAll, endAll, segsEx2, secv0, secv10, Rat.ceil, Int.toNat]
  rw [show chunkOpt segsEx2 360 20
      = chunkGo segsEx2 360 20 (endAll segsEx2) (chunkFuel segsEx2 360 20) (startAll segsEx2)
      from rfl, hfuel]
  rw [show endAll segsEx2 = 10 from by norm_num [endAll, segsEx2, secv10]]
  rw [show startAll segsEx2 = 0 from by norm_num [startAll, segsEx2, secv0]]
  norm_num [chunkGo_succ, chunkGo_zero, List.filter, segsEx2, secv0, secv10, min_def]

theorem chunkOpt_segsEx4 : chunkOpt segsEx4 360 20 = some wsEx4 := by
  have hfuel : chunkFuel segsEx4 360 20 = 3 := by
    norm_num [chunkFuel, startAll, endAll, segsEx4, secv0, secv350, Rat.ceil, Int.toNat]
  rw [show chunkOpt segsEx4 360 20
      = chunkGo segsEx4 360 20 (endAll segsEx4) (chunkFuel segsEx4 360 20) (startAll segsEx4)
      from rfl, hfuel]
  rw [show endAll segsEx4 = 350 from by norm_num [endAll, segsEx4, secv350]]
  rw [show startAll segsEx4 = 0 from by norm_num [startAll, segsEx4, secv0]]
  norm_num [chunkGo_succ, chunkGo_zero, List.filter, wsEx4, segsEx4, secv0, secv350, min_def]

theorem merge_segsEx2 : merge_short segsEx2 3 = segsEx2 := by
  norm_num [merge_short, mergeStep, segsEx2, List.foldl, secv0, secv10,
    show ¬("B" : String) = "A" from by decide]

/-! ## Claims -/

/-- C1 (amended): for every window produced by the Window Chunker and
every input segment, the segment is a member of the window's items iff
its start (in seconds) is strictly less than the window's *nominal* end
`window.start + windowSeconds` and its end is strictly greater than the
window's start.  (For every window whose stored end is not clipped to
the overall end the nominal end equals the stored end, and a segment
straddling the boundary of two adjacent windows appears in both.)  The
claim as literally stated — with the window's stored, possibly clipped
end — fails, see the counterexample. -/
theorem C1_window_membership (segs : List Seg) (window overlap : ℚ) (ws : List Window)
    (w : Window) (s : Seg) (hws : chunkOpt segs window overlap = some ws) (hw : w ∈ ws)
    (hs : s ∈ segs) :
    s ∈ w.items ↔ (sec s.start < w.start + window ∧ sec s.stop > w.start) := by
  cases segs with
  | nil =>
    simp only [chunkOpt, Option.some.injEq] at hws
    rw [← hws] at hw
    simp at hw
  | cons s0 l =>
    rw [show chunkOpt (s0 :: l) window overlap
        = chunkGo (s0 :: l) window overlap (endAll (s0 :: l))
            (chunkFuel (s0 :: l) window overlap) (startAll (s0 :: l)) from rfl] at hws
    rw [chunkGo_items _ _ _ hws w hw, List.mem_filter]
    simp [hs, decide_eq_true_iff]

/-- C1 witness: in `segsEx1` (segments 0–350, 350–370, 370–1000 with
alternating speakers) the 350–370 segment satisfies the membership
equivalence for the first produced window `[0, 360)`. -/
theorem C1_window_membership_witness :
    chunkOpt segsEx1 360 20 = some wsEx1 ∧ wEx1 ∈ wsEx1 ∧ segEx1mid ∈ segsEx1
      ∧ (segEx1mid ∈ wEx1.items
          ↔ (sec segEx1mid.start < wEx1.start + 360 ∧ sec segEx1mid.stop > wEx1.start)) :=
  ⟨chunkOpt_segsEx1, List.mem_cons_self wEx1 _, by decide,
   C1_window_membership segsEx1 360 20 wsEx1 wEx1 segEx1mid chunkOpt_segsEx1
     (List.mem_cons_self wEx1 _) (by decide)⟩

/-- C1 counterexample: `segsEx2` is chronological, `start ≤ end` holds
for each segment, the Segment Merger keeps it unchanged, and `chunk`
produces the single window `{start := 0, stop := 10}` whose items
contain the degenerate segment 10–10 even though that segment's start
is not strictly less than the window's stored end. -/
theorem C1_claim_counterexample :
    merge_short segsEx2 3 = segsEx2
      ∧ chunkOpt segsEx2 360 20 = some [⟨0, 10, segsEx2⟩]
      ∧ segEx2b ∈ (⟨0, 10, segsEx2⟩ : Window).items
      ∧ ¬ sec segEx2b.start < (⟨0, 10, segsEx2⟩ : Window).stop := by
  refine ⟨merge_segsEx2, chunkOpt_segsEx2, by decide, ?_⟩
  rw [show segEx2b.start = "00:00:10.000" from rfl, secv10]
  norm_num

/-- C2: the loop of `chunk` never terminates when
`overlap = window = 360` on a segment list spanning 0–360 seconds: no
iteration budget completes it, because the window start never advances.
The source has no guard against `overlapSeconds ≥ windowSeconds`, so
the claim that the implementation guards this case is wrong. -/
theorem C2_chunk_no_guard :
    startAll [segEx3] = 0 ∧ endAll [segEx3] = 360
      ∧ ∀ fuel : Nat,
          chunkGo [segEx3] 360 360 (endAll [segEx3]) fuel (startAll [segEx3]) = none := by
  have h0 : startAll [segEx3] = 0 := by norm_num [startAll, segEx3, secv0]
  have h1 : endAll [segEx3] = 360 := by norm_num [endAll, segEx3, secv360]
  refine ⟨h0, h1, ?_⟩
  rw [h0, h1]
  intro fuel
  induction fuel with
  | zero => rw [chunkGo_zero, if_pos (by norm_num)]
  | succ fuel ih =>
    rw [chunkGo_succ, if_pos (by norm_num)]
    rw [show (0 : ℚ) + 360 - 360 = 0 from by norm_num, ih]

/-- C3: `merge_short` coincides with the spec's description of the
Segment Merger: an incoming segment is merged into the immediately
preceding retained segment iff the speakers agree (None equal to None)
and the gap lies within `[0, gap]` (so a negative gap does not merge);
a merge extends the retained end to the incoming end and joins the
texts with a single space; merging never crosses a non-matching
segment, and order is preserved. -/
theorem C3_merge_semantics (segs : List Seg) (gap : ℚ) :
    merge_short segs gap = mergeSpec gap segs :=
  merge_short_eq_mergeSpec segs gap

/-- C4 (amended): for a non-empty segment list, whenever the chunker
completes, successive window starts advance by exactly
`window - overlap`, every window's end is `min (start + window)
(overall end)` — so each window is `window` seconds wide unless clipped
by the overall end, which always clips the final window but can also
clip an earlier one — and the windows' `[start, stop)` ranges union to
exactly the overall span with no gap.  The claim as literally stated
(only the final window may be narrower than `window`) fails, see the
counterexample. -/
theorem C4_window_layout (segs : List Seg) (window overlap : ℚ) (ws : List Window)
    (h0 : 0 ≤ overlap) (h1 : overlap < window) (hne : segs ≠ [])
    (hws : chunkOpt segs window overlap = some ws) :
    ChunkShape segs window overlap ws := by
  cases segs with
  | nil => exact absurd rfl hne
  | cons s0 l =>
    rw [show chunkOpt (s0 :: l) window overlap
        = chunkGo (s0 :: l) window overlap (endAll (s0 :: l))
            (chunkFuel (s0 :: l) window overlap) (startAll (s0 :: l)) from rfl] at hws
    refine ⟨?_, ?_, ?_⟩
    · intro i hi
      rw [chunkGo_starts _ _ _ hws (i + 1) hi,
        chunkGo_starts _ _ _ hws i (Nat.lt_of_succ_lt hi)]
      push_cast
      ring
    · intro w hw
      exact chunkGo_stops _ _ _ hws w hw
    · intro t
      exact chunkGo_cover h0 h1 _ _ _ hws t

/-- C4 witness: the layout statement holds for the produced windows of
`segsEx1` (span 0–1000 seconds) under the default parameters. -/
theorem C4_window_layout_witness :
    (0 : ℚ) ≤ 20 ∧ (20 : ℚ) < 360 ∧ segsEx1 ≠ []
      ∧ chunkOpt segsEx1 360 20 = some wsEx1 ∧ ChunkShape segsEx1 360 20 wsEx1 :=
  ⟨by norm_num, by norm_num, by decide, chunkOpt_segsEx1,
   C4_window_layout segsEx1 360 20 wsEx1 (by norm_num) (by norm_num) (by decide)
     chunkOpt_segsEx1⟩

/-- C4 counterexample: for a single merged segment spanning 0–350
seconds and the default parameters, `chunk` produces two windows, the
first of which is clipped to the overall end (width 350, not 360)
although it is not the final window. -/
theorem C4_claim_counterexample :
    chunkOpt segsEx4 360 20 = some wsEx4
      ∧ wsEx4.length = 2
      ∧ (wsEx4.headD ⟨0, 0, []⟩).stop = endAll segsEx4
      ∧ (wsEx4.headD ⟨0, 0, []⟩).stop - (wsEx4.headD ⟨0, 0, []⟩).start ≠ 360 := by
  refine ⟨chunkOpt_segsEx4, rfl, ?_, ?_⟩
  · rw [show endAll segsEx4 = 350 from by norm_num [endAll, segsEx4, secv350]]
    rfl
  · norm_num [wsEx4, List.headD]

/-- C5 (amended): rendering any sequence of well-formed cue blocks —
each an arbitrary run of skipped junk lines, a cue-timing line, the
non-blank payload lines and a blank separator — and parsing it back
yields exactly one segment per block, in file order; each segment is
built from the block's payload lines stripped of surrounding whitespace
and joined with single spaces, after which the speaker prefix, when
present, is split off into the `speaker` field.  The claim as literally
stated (the segment's `text` equals the joined payload) fails whenever
a speaker prefix is split off, see the counterexample. -/
theorem C5_parser_completeness (blocks : List (List String × Block))
    (hj : ∀ jb ∈ blocks, ∀ l ∈ jb.1, JunkLine l)
    (hb : ∀ jb ∈ blocks, GoodBlock jb.2) :
    parse_vtt (unlines (renderAll blocks)) = blocks.map fun jb => segOfBlock jb.2 := by
  cases blocks with
  | nil => rfl
  | cons jb blocks2 =>
    have hlines : splitLines (unlines (renderAll (jb :: blocks2)))
        = renderAll (jb :: blocks2) := by
      apply splitLines_unlines
      · rw [renderAll_cons]
        simp
      · exact noNL_renderAll _ hj hb
    rw [parse_vtt, hlines]
    exact parseGo_renderAll _ (fun jb2 h2 l hl => (hj jb2 h2 l hl).1) hb

/-- C5 witness: the two-block input `blocksEx` (with a WEBVTT header
and a blank preamble line) parses to exactly its two segments. -/
theorem C5_parser_completeness_witness :
    (∀ jb ∈ blocksEx, ∀ l ∈ jb.1, JunkLine l) ∧ (∀ jb ∈ blocksEx, GoodBlock jb.2)
      ∧ parse_vtt (unlines (renderAll blocksEx)) = blocksEx.map fun jb => segOfBlock jb.2 :=
  ⟨by decide, by decide, C5_parser_completeness blocksEx (by decide) (by decide)⟩

/-- C5 counterexample: a single well-formed cue block with payload
`Alice: hi` parses to one segment whose `text` is `hi`, not the joined
payload `Alice: hi` — the speaker prefix is split off. -/
theorem C5_claim_counterexample :
    parse_vtt ("00:00:00.000 --> 00:00:01.000\nAlice: hi")
        = [⟨"00:00:00.000", "00:00:01.000", some "Alice", "hi"⟩]
      ∧ (⟨"00:00:00.000", "00:00:01.000", some "Alice", "hi"⟩ : Seg).text
          ≠ joinSp ["Alice: hi"] := by
  decide

/-- C6 (amended): the parser's speaker extraction returns
`(some s, b)` exactly when the joined payload decomposes as optional
whitespace, then `s` — an uppercase letter followed by at most 40
characters that are letters, digits, underscores, spaces, apostrophes,
hyphens or periods — then a colon, optional whitespace, and the
remainder `b`; otherwise the speaker is `None` and the text is the full
payload.  The claim as literally stated omits the underscore (Python's
`\w` includes it), see the counterexample. -/
theorem C6_speaker_extraction (text : String) :
    ((speakerSplit text).1 = none → (speakerSplit text).2 = text)
      ∧ ∀ s b : String, speakerSplit text = (some s, b) ↔ SpeakerDecomp text s b := by
  constructor
  · intro h
    unfold speakerSplit at h ⊢
    cases hm : speakerMatch text with
    | none => rfl
    | some p =>
      rw [hm] at h
      obtain ⟨ps, pb⟩ := p
      exact absurd h (by simp)
  · intro s b
    rw [← speakerMatch_iff text s b]
    unfold speakerSplit
    cases hm : speakerMatch text with
    | none =>
      constructor
      · intro h
        exact absurd h (by simp)
      · intro h
        exact absurd h (by simp)
    | some p =>
      obtain ⟨ps, pb⟩ := p
      constructor
      · intro h
        simp only [Prod.mk.injEq, Option.some.injEq] at h
        rw [h.1, h.2]
      · intro h
        simp only [Option.some.injEq, Prod.mk.injEq] at h
        rw [h.1, h.2]

/-- C6 witness: `Alice: hello there` decomposes with speaker `Alice`
and remainder `hello there`; `hello there` yields no speaker and keeps
the full payload. -/
theorem C6_speaker_extraction_witness :
    SpeakerDecomp ("Alice: hello there") "Alice" "hello there"
      ∧ (speakerSplit ("hello there")).2 = "hello there" :=
  ⟨((C6_speaker_extraction ("Alice: hello there")).2 "Alice" "hello there").mp (by decide),
   (C6_speaker_extraction ("hello there")).1 (by decide)⟩

/-- C6 counterexample: the payload `A_b: hi` is given the speaker
`A_b`, whose underscore is not among the characters the claim allows
(letters, digits, spaces, apostrophes, hyphens, periods). -/
theorem C6_claim_counterexample :
    (speakerSplit ("A_b: hi")).1 = some "A_b"
      ∧ '_' ∈ ("A_b" : String).data
      ∧ ('_'.isAlpha || '_'.isDigit || '_' == ' ' || '_' == '\'' || '_' == '-'
          || '_' == '.') = false := by
  decide

/-- C7: every start and end timestamp string of a segment produced by
the Cue Parser has the exact `HH:MM:SS.mmm` shape, and `_sec` succeeds
on it (both splits and all integer conversions). -/
theorem C7_timestamps_wellformed (raw : String) (s : Seg) (hs : s ∈ parse_vtt raw) :
    tsShape s.start = true ∧ tsShape s.stop = true
      ∧ (sec? s.start).isSome = true ∧ (sec? s.stop).isSome = true := by
  have h := parseGo_tsShape (splitLines raw) none (by simp) s hs
  exact ⟨h.1, h.2, sec?_isSome_of_tsShape h.1, sec?_isSome_of_tsShape h.2⟩

/-- C7 witness: the segment parsed from `rawEx7` has well-formed
timestamps on which `sec?` succeeds. -/
theorem C7_timestamps_wellformed_witness :
    segEx7 ∈ parse_vtt rawEx7
      ∧ (tsShape segEx7.start = true ∧ tsShape segEx7.stop = true
          ∧ (sec? segEx7.start).isSome = true ∧ (sec? segEx7.stop).isSome = true) :=
  ⟨by decide, C7_timestamps_wellformed rawEx7 segEx7 (by decide)⟩

/-- C8: the Window Chunker maps an empty segment sequence to an empty
window sequence, and when the parser recognizes no cues the run stops
with the blocking `No cues found in file.` error — the summarization
collaborator is never invoked, since the result does not depend on it. -/
theorem C8_empty_shortcircuit :
    (∀ window overlap : ℚ, chunkOpt [] window overlap = some [])
      ∧ ∀ (α : Type) (summarize : Window → α) (raw : String),
          parse_vtt raw = [] →
            pipeline summarize raw = Except.error ("No cues found in file.") := by
  constructor
  · intro window overlap
    rfl
  · intro α f raw h
    simp only [pipeline, h]
    rfl

/-- C8 witness: on the cue-free input `WEBVTT` the pipeline stops with
the blocking error (shown for a concrete summarizer). -/
theorem C8_empty_shortcircuit_witness :
    pipeline (fun _ => (0 : Nat)) ("WEBVTT") = Except.error ("No cues found in file.") :=
  C8_empty_shortcircuit.2 Nat (fun _ => (0 : Nat)) ("WEBVTT") (by decide)

/-- C9: on the canonical rendering of any fields `H, M, S ≤ 99` and
`ms ≤ 999`, `_sec` returns exactly `H*3600 + M*60 + S + ms/1000`
(computed in exact rational arithmetic). -/
theorem C9_sec_formula (H M S ms : Nat) (hH : H ≤ 99) (hM : M ≤ 99) (hS : S ≤ 99)
    (hms : ms ≤ 999) :
    sec? (fmtTS H M S ms)
      = some ((H : ℚ) * 3600 + (M : ℚ) * 60 + (S : ℚ) + (ms : ℚ) / 1000) := by
  have e1 : (10 * ((Char.ofNat (48 + H / 10)).toNat - 48)
      + ((Char.ofNat (48 + H % 10)).toNat - 48) : Nat) = H := by
    rw [ofNat_digit_toNat (by omega), ofNat_digit_toNat (by omega)]
    omega
  have e2 : (10 * ((Char.ofNat (48 + M / 10)).toNat - 48)
      + ((Char.ofNat (48 + M % 10)).toNat - 48) : Nat) = M := by
    rw [ofNat_digit_toNat (by omega), ofNat_digit_toNat (by omega)]
    omega
  have e3 : (10 * ((Char.ofNat (48 + S / 10)).toNat - 48)
      + ((Char.ofNat (48 + S % 10)).toNat - 48) : Nat) = S := by
    rw [ofNat_digit_toNat (by omega), ofNat_digit_toNat (by omega)]
    omega
  have e4 : (10 * (10 * ((Char.ofNat (48 + ms / 100)).toNat - 48)
      + ((Char.ofNat (48 + ms / 10 % 10)).toNat - 48))
      + ((Char.ofNat (48 + ms % 10)).toNat - 48) : Nat) = ms := by
    rw [ofNat_digit_toNat (by omega), ofNat_digit_toNat (by omega),
      ofNat_digit_toNat (by omega)]
    omega
  rw [show fmtTS H M S ms
      = (⟨[Char.ofNat (48 + H / 10), Char.ofNat (48 + H % 10), ':',
           Char.ofNat (48 + M / 10), Char.ofNat (48 + M % 10), ':',
           Char.ofNat (48 + S / 10), Char.ofNat (48 + S % 10), '.',
           Char.ofNat (48 + ms / 100), Char.ofNat (48 + ms / 10 % 10),
           Char.ofNat (48 + ms % 10)]⟩ : String) from rfl]
  rw [sec?_explicit _ _ _ _ _ _ _ _ _
    (ofNat_digit_isDigit (by omega)) (ofNat_digit_isDigit (by omega))
    (ofNat_digit_isDigit (by omega)) (ofNat_digit_isDigit (by omega))
    (ofNat_digit_isDigit (by omega)) (ofNat_digit_isDigit (by omega))
    (ofNat_digit_isDigit (by omega)) (ofNat_digit_isDigit (by omega))
    (ofNat_digit_isDigit (by omega))]
  rw [e1, e2, e3, e4]

/-- C9 witness: `01:02:03.456` converts to `3723.456` seconds via the
formula. -/
theorem C9_sec_formula_witness :
    (1 ≤ 99 ∧ 2 ≤ 99 ∧ 3 ≤ 99 ∧ 456 ≤ 999)
      ∧ sec? (fmtTS 1 2 3 456)
          = some ((1 : ℚ) * 3600 + (2 : ℚ) * 60 + (3 : ℚ) + (456 : ℚ) / 1000) :=
  ⟨by norm_num,
   C9_sec_formula 1 2 3 456 (by norm_num) (by norm_num) (by norm_num) (by norm_num)⟩

/-- C10: a well-formed cue-timing line written with leading whitespace
(`cueMatch` fails on it unstripped but succeeds stripped), placed right
after a cue's non-blank payload lines with no blank line in between, is
absorbed into that cue's text payload instead of starting a new cue:
the input parses to a single segment built from all the lines'
stripped contents. -/
theorem C10_indented_cue_absorbed (st en : String) (payload : List String) (l : String)
    (st2 en2 : String) (hst : tsShape st = true) (hen : tsShape en = true)
    (hp : ∀ x ∈ payload, strip x ≠ "" ∧ cueMatch x = none ∧ noNL x = true)
    (hl1 : strip l ≠ "") (hl2 : cueMatch l = none)
    (_hl3 : cueMatch (strip l) = some (st2, en2)) (hl4 : noNL l = true) :
    parse_vtt (unlines (renderCueLine st en :: (payload ++ [l])))
      = [mkSeg st en ((payload ++ [l]).map strip)] := by
  have hlines : splitLines (unlines (renderCueLine st en :: (payload ++ [l])))
      = renderCueLine st en :: (payload ++ [l]) := by
    apply splitLines_unlines (by simp)
    intro x hx
    rcases List.mem_cons.mp hx with rfl | hx2
    · exact noNL_renderCueLine hst hen
    · rcases List.mem_append.mp hx2 with hx3 | hx3
      · exact (hp x hx3).2.2
      · rw [List.mem_singleton.mp hx3]
        exact hl4
  rw [parse_vtt, hlines, parseGo_none_cons, strip_renderCueLine hst hen,
    cueMatch_renderCueLine hst hen]
  show parseGo (some (st, en, [])) (payload ++ [l]) = _
  have hps : ∀ x ∈ payload ++ [l], strip x ≠ "" ∧ cueMatch x = none := by
    intro x hx
    rcases List.mem_append.mp hx with hx2 | hx2
    · exact ⟨(hp x hx2).1, (hp x hx2).2.1⟩
    · rw [List.mem_singleton.mp hx2]
      exact ⟨hl1, hl2⟩
  conv_lhs => rw [show payload ++ [l] = (payload ++ [l]) ++ [] from by simp]
  rw [parseGo_absorb st en [] [] hps]
  rfl

/-- C10 witness: the indented cue-timing line ` 00:00:02.000 -->
00:00:03.000` after the payload line `hello` is absorbed into the
single parsed segment. -/
theorem C10_indented_cue_absorbed_witness :
    cueMatch lineEx10 = none ∧ cueMatch (strip lineEx10) = some ("00:00:02.000", "00:00:03.000")
      ∧ parse_vtt (unlines (renderCueLine "00:00:01.000" "00:00:02.000" :: (["hello"] ++ [lineEx10])))
          = [mkSeg "00:00:01.000" "00:00:02.000" ((["hello"] ++ [lineEx10]).map strip)] :=
  ⟨by decide, by decide,
   C10_indented_cue_absorbed "00:00:01.000" "00:00:02.000" ["hello"] lineEx10
     "00:00:02.000" "00:00:03.000" (by decide) (by decide) (by decide) (by decide)
     (by decide) (by decide) (by decide)⟩

end VTT
